import Mathlib

/-
  Shallow embedding of the IATTC data crawler (iattc-crawler.py) and
  verification of the specification claims against it.
-/

namespace IATTC

/-! ## String helpers mirroring the Python builtins used by the crawler -/

/-- Whitespace characters stripped by Python `str.strip()`. -/
def isPyWhitespace (c : Char) : Bool :=
  c = ' ' || c = '\t' || c = '\n' || c = '\x0d' || c = '\x0b' || c = '\x0c'

/-- Python `str.strip()` on a character list. -/
def trimChars (l : List Char) : List Char :=
  ((l.dropWhile isPyWhitespace).reverse.dropWhile isPyWhitespace).reverse

/-- Python `str.strip()`. -/
def pyStrip (s : String) : String := ⟨trimChars s.data⟩

/-- Python `str.lower()` (ASCII). -/
def strLower (s : String) : String := ⟨s.data.map Char.toLower⟩

/-- Split a character list on a separator character (like Python `str.split(sep)`). -/
def splitOnChar (sep : Char) : List Char → List (List Char)
  | [] => [[]]
  | c :: cs =>
    let r := splitOnChar sep cs
    if c = sep then [] :: r
    else
      match r with
      | [] => [[c]]
      | g :: gs => (c :: g) :: gs

/-- Drop an optional leading sign, as Python numeric parsing does. -/
def stripSign : List Char → List Char
  | '+' :: r => r
  | '-' :: r => r
  | r => r

/-- Accumulate a digit group as Python `int`/`float` grammars do: ASCII digits
with single underscores allowed only between digits. Returns `none` when the
group is empty or malformed. -/
def digitsAux : Nat → Bool → List Char → Option Nat
  | acc, last, [] => if last then some acc else none
  | acc, last, c :: cs =>
    if c.isDigit then digitsAux (acc * 10 + (c.toNat - 48)) true cs
    else if c = '_' then (if last then digitsAux acc false cs else none)
    else none

/-- A nonempty well-formed digit group (Python `digitpart`). -/
def isDigitPart (l : List Char) : Bool := (digitsAux 0 false l).isSome

/-- Python `int(value)` on an already-stripped string: optional sign then digits. -/
def pyIntParse (s : String) : Option Int :=
  match s.data with
  | '+' :: r => (digitsAux 0 false r).map (fun n => (n : Int))
  | '-' :: r => (digitsAux 0 false r).map (fun n => -(n : Int))
  | r => (digitsAux 0 false r).map (fun n => (n : Int))

/-- Python float mantissa grammar: `digitpart ["." [digitpart]]` or `"." digitpart`. -/
def mantissaOk (m : List Char) : Bool :=
  match splitOnChar '.' m with
  | [a] => isDigitPart a
  | [a, b] => (isDigitPart a && (b.isEmpty || isDigitPart b)) || (a.isEmpty && isDigitPart b)
  | _ => false

/-- Python float exponent grammar: optional sign then a digit group. -/
def expOk (x : List Char) : Bool := isDigitPart (stripSign x)

/-- Numeric part of the Python float grammar (after sign removal, lowercased). -/
def numericOk (l : List Char) : Bool :=
  match splitOnChar 'e' l with
  | [m] => mantissaOk m
  | [m, x] => mantissaOk m && expOk x
  | _ => false

/-- Whether Python `float(value)` succeeds on an already-stripped string. -/
def pyFloatAccepts (s : String) : Bool :=
  let l := s.data.map Char.toLower
  let body := stripSign l
  body == "inf".data || body == "infinity".data || body == "nan".data || numericOk body

/-- JSON-bound cell values produced by `CSVToJSONConverter`. A float cell keeps
its source numeral text, since no claim depends on float arithmetic. -/
inductive Value where
  | vNull : Value
  | vInt : Int → Value
  | vFloat : String → Value
  | vBool : Bool → Value
  | vStr : String → Value
deriving DecidableEq

/-- Token set accepted by the boolean branch of `_convert_value`. -/
def boolTokens : List String := ["true", "false", "yes", "no", "1", "0"]

/-- Tokens that convert to `True` in `_convert_value`. -/
def trueTokens : List String := ["true", "yes", "1"]

/-- `CSVToJSONConverter._convert_value`: try int, then float, then boolean
tokens (case-insensitive), else keep the text. -/
def convert_value (value : String) : Value :=
  match pyIntParse value with
  | some n => .vInt n
  | none =>
    if pyFloatAccepts value then .vFloat value
    else
      let lower := strLower value
      if boolTokens.contains lower then .vBool (trueTokens.contains lower)
      else .vStr value

/-- Per-cell handling in `CSVToJSONConverter._clean_row`: a missing value or a
value that strips to the empty string becomes null, otherwise the stripped
value is type-converted. -/
def cleanCell (value : Option String) : Value :=
  match value with
  | none => .vNull
  | some v => if pyStrip v = "" then .vNull else convert_value (pyStrip v)

/-- Per-key handling in `_clean_row`: `key.strip() if key else 'unnamed_column'`
(a `None` or empty key is falsy and becomes the placeholder). -/
def cleanKey : Option String → String
  | none => "unnamed_column"
  | some k => if k = "" then "unnamed_column" else pyStrip k

/-- Python dict assignment `d[k] = v` on an insertion-ordered association
list: overwrite in place if the key exists, else append. -/
def dictInsert : List (String × Value) → String → Value → List (String × Value)
  | [], k, v => [(k, v)]
  | (k', v') :: rest, k, v =>
    if k' = k then (k', v) :: rest else (k', v') :: dictInsert rest k v

/-- `CSVToJSONConverter._clean_row`: fold the row's (key, value) pairs into a
fresh dict with cleaned keys and converted values. -/
def clean_row (pairs : List (Option String × Option String)) : List (String × Value) :=
  pairs.foldl (fun acc q => dictInsert acc (cleanKey q.1) (cleanCell q.2)) []

/-! ## `CSVToJSONConverter._read_csv`: encoding fallback loop -/

/-- A raw parsed row as produced by `csv.DictReader`: ordered (fieldname,
value) pairs, where a fieldname or a value may be absent. -/
def RawRow := List (Option String × Option String)

/-- Outcome of attempting one encoding in `_read_csv`: a `UnicodeDecodeError`,
any other exception (sniffer or reader failure), or a successful parse into
raw rows. -/
inductive ReadOutcome where
  | decodeErr : ReadOutcome
  | otherErr : ReadOutcome
  | ok : List RawRow → ReadOutcome

/-- The fixed candidate encodings tried by `_read_csv`, in order. -/
def encodings : List String := ["utf-8", "latin-1", "cp1252"]

/-- The encoding loop of `_read_csv`: the first encoding that parses without
an exception sets `data` to its cleaned rows and breaks; failed encodings are
skipped; `data` stays empty when every attempt fails. -/
def readLoop (file : String → ReadOutcome) : List String → List (List (String × Value))
  | [] => []
  | e :: es =>
    match file e with
    | .ok rows => rows.map clean_row
    | _ => readLoop file es

/-- `CSVToJSONConverter._read_csv`: run the encoding loop, then raise
`Exception("Could not read CSV file with any encoding")` when `data` is empty. -/
def read_csv (file : String → ReadOutcome) : Except String (List (List (String × Value))) :=
  let data := readLoop file encodings
  if data.isEmpty then .error "Could not read CSV file with any encoding"
  else .ok data

/-! ## `WebsiteMonitor.detect_changes`

The fetched page is abstracted to its text (`Option String`, `none` when
`_make_request` exhausted its retries), the digest function is a parameter,
and the cache is the stored `page_hash` entry (`none` when no cache exists). -/

/-- `WebsiteMonitor.detect_changes`: hash the fetched page, compare with the
stored hash, persist the new hash and answer `true` exactly when they differ. -/
def detect_changes (hashf : String → String) (resp : Option String)
    (cache : Option String) : Bool × Option String :=
  match resp with
  | none => (false, cache)
  | some content =>
    let currentHash := hashf content
    if (some currentHash : Option String) ≠ cache then (true, some currentHash)
    else (false, cache)

/-! ## Outbound fetch policy

`_make_request` retries with exponential backoff; the metadata probe in
`_enrich_file_info` and the artifact fetch in `FileDownloader.download` issue
a single `session.head`/`session.get` call. The network is an oracle from the
attempt number to the response of that attempt. -/

/-- Config default `retry_attempts`. -/
def retry_attempts : Nat := 3

/-- The retry loop of `WebsiteMonitor._make_request` from a given attempt
number with a given number of attempts remaining. Returns the response (if
any attempt succeeded) together with the list of backoff sleeps performed
(`2 ** attempt` after each failed attempt). -/
def make_request_from (net : Nat → Option String) : Nat → Nat → Option String × List Nat
  | _, 0 => (none, [])
  | attempt, rem + 1 =>
    match net attempt with
    | some r => (some r, [])
    | none =>
      let rest := make_request_from net (attempt + 1) rem
      (rest.1, 2 ^ attempt :: rest.2)

/-- `WebsiteMonitor._make_request`: up to `retries` attempts starting at 0. -/
def make_request (net : Nat → Option String) (retries : Nat) : Option String × List Nat :=
  make_request_from net 0 retries

/-- The metadata probe of `WebsiteMonitor._enrich_file_info`: one
`session.head` call, no retry. -/
def head_probe (net : Nat → Option String) : Option String := net 0

/-- The artifact fetch of `FileDownloader.download`: one `session.get` call,
no retry. -/
def download_get (net : Nat → Option String) : Option String := net 0

/-! ## Processing chain dispatch -/

/-- Final path component (`pathlib.PurePath.name`). -/
def pathName (p : String) : String :=
  ⟨p.data.foldl (fun acc c => if c = '/' then [] else acc ++ [c]) []⟩

/-- Index of the last `'.'` in a character list, if any. -/
def lastDotIdxAux : List Char → Nat → Option Nat → Option Nat
  | [], _, acc => acc
  | c :: cs, i, acc => lastDotIdxAux cs (i + 1) (if c = '.' then some i else acc)

/-- Index of the last `'.'` in a character list, if any. -/
def lastDotIdx (l : List Char) : Option Nat := lastDotIdxAux l 0 none

/-- `pathlib.PurePath.suffix`: the extension of the final component, empty
when the last dot is leading, trailing or absent. -/
def pathSuffix (p : String) : String :=
  let cs := (pathName p).data
  match lastDotIdx cs with
  | none => ""
  | some i => if 0 < i ∧ i + 1 < cs.length then ⟨cs.drop i⟩ else ""

/-- `ZipProcessor.can_process`: suffix is `.zip` case-insensitively. -/
def zip_can_process (p : String) : Bool := strLower (pathSuffix p) == ".zip"

/-- `CSVToJSONConverter.can_process`: suffix is `.csv` case-insensitively. -/
def csv_can_process (p : String) : Bool := strLower (pathSuffix p) == ".csv"

/-- An `IFileProcessor`: its dispatch predicate, its processing action (paths
in, output paths out), and whether it is the `ZipProcessor` (used by the
orchestrator's recursion test `isinstance(processor, ZipProcessor)`). -/
structure Processor where
  canProcess : String → Bool
  process : String → List String
  isZip : Bool

/-- The processors whose `process` the loop in
`IATTCDataMonitor._process_single_file` invokes on one file during one pass
over the registered chain: every processor whose `can_process` returns true,
in registry order. -/
def invokedOn : List Processor → String → List Processor
  | [], _ => []
  | p :: ps, f => if p.canProcess f then p :: invokedOn ps f else invokedOn ps f

/-- Modelled from the spec: the dispatch the claim describes, which stops at
the first processor whose predicate holds and invokes only that one. -/
def firstMatchOnly : List Processor → String → List Processor
  | [], _ => []
  | p :: ps, f => if p.canProcess f then [p] else firstMatchOnly ps f

/-- The `ZipProcessor` registered by `create_monitor`, its extraction action
left as a parameter. -/
def zipProcessor (ext : String → List String) : Processor :=
  ⟨zip_can_process, ext, true⟩

/-- The `CSVToJSONConverter` registered by `create_monitor`, its conversion
action left as a parameter. -/
def csvProcessor (conv : String → List String) : Processor :=
  ⟨csv_can_process, conv, false⟩

/-- The registry built by `create_monitor`: zip first, then csv. -/
def defaultProcessors (ext conv : String → List String) : List Processor :=
  [zipProcessor ext, csvProcessor conv]

/-! ## Download model

A file's on-disk content is abstracted to its byte size plus whether
`zipfile.ZipFile`/`testzip` accepts it; the filesystem maps paths to stored
contents. -/

/-- Abstracted content of an on-disk or fetched file. -/
structure Content where
  size : Nat
  isZip : Bool
deriving DecidableEq

/-- The filesystem: which content, if any, each path holds. -/
def FS := String → Option Content

/-- Write (or with `none`, unlink) a path. -/
def fsUpdate (fs : FS) (k : String) (v : Option Content) : FS :=
  fun k' => if k' = k then v else fs k'

/-- The `FileInfo` dataclass. `size` is `none` before `_enrich_file_info`
runs and `some` of the probed value afterwards. -/
structure FileInfo where
  url : String
  filename : String
  size : Option Nat
  lastModified : Option String
deriving DecidableEq

/-- `WebsiteMonitor._enrich_file_info` on a successful probe:
`size = int(headers.get('content-length', 0))`, so a missing header yields 0. -/
def enrich_file_info (contentLength : Option Nat) (lastMod : Option String)
    (info : FileInfo) : FileInfo :=
  { info with size := some (contentLength.getD 0), lastModified := lastMod }

/-- `FileDownloader._validate_existing_file` given the current content at the
path: fail when the file is absent, or when `file_info.size` is truthy
(present and nonzero) and differs from the on-disk size. -/
def validate_existing_file (cur : Option Content) (info : FileInfo) : Bool :=
  match cur, info.size with
  | none, _ => false
  | some c, some n => if n != 0 && c.size != n then false else true
  | some _, none => true

/-- `FileDownloader._validate_download` given the current content at the
path: the truthy-size check of `_validate_existing_file`, then the zip
integrity check. -/
def validate_download (cur : Option Content) (info : FileInfo) : Bool :=
  match cur, info.size with
  | none, _ => false
  | some c, some n => if n != 0 && c.size != n then false else c.isZip
  | some c, none => c.isZip

/-- How the streaming fetch of one artifact ends: an exception before any
byte is written (request/raise_for_status), an exception mid-stream after a
partial prefix was written, or a complete body. -/
inductive FetchOutcome where
  | failEarly : FetchOutcome
  | failMid : Content → FetchOutcome
  | ok : Content → FetchOutcome

/-- Result of `FileDownloader.download`: the returned boolean, the filesystem
afterwards, and how many network fetches were issued. -/
structure DownloadResult where
  ok : Bool
  fs : FS
  fetches : Nat

/-- `FileDownloader.download`: skip when the destination exists and validates
against the metadata; otherwise fetch, and on a completed body validate it,
unlinking the file and failing when validation rejects it. A mid-stream
exception leaves the partial file in place. -/
def download (o : FetchOutcome) (info : FileInfo) (dst : String) (fs : FS) : DownloadResult :=
  if (fs dst).isSome && validate_existing_file (fs dst) info then ⟨true, fs, 0⟩
  else
    match o with
    | .failEarly => ⟨false, fs, 1⟩
    | .failMid p => ⟨false, fsUpdate fs dst (some p), 1⟩
    | .ok c =>
      let fs1 := fsUpdate fs dst (some c)
      if validate_download (fs1 dst) info then ⟨true, fs1, 1⟩
      else ⟨false, fsUpdate fs1 dst none, 1⟩

/-- Destination path used by `_download_files_concurrently`:
`Path(download_dir) / file_info.filename`. -/
def destPath (dir : String) (info : FileInfo) : String := dir ++ "/" ++ info.filename

/-- `IATTCDataMonitor._download_files_concurrently`: run every descriptor's
download (the pool's tasks write distinct paths; the fold serialises them in
submission order) and collect the paths whose download returned true. -/
def downloadAll (net : String → FetchOutcome) (dir : String) :
    List FileInfo → FS → List String × FS
  | [], fs => ([], fs)
  | i :: is, fs =>
    let r := download (net i.url) i (destPath dir i) fs
    let rest := downloadAll net dir is r.fs
    if r.ok then (destPath dir i :: rest.1, rest.2) else rest

/-! ## Shared helper lemmas -/

theorem range_pow_shift (attempt m : Nat) :
    (List.range (m + 1)).map (fun i => 2 ^ (attempt + i)) =
      2 ^ attempt :: (List.range m).map (fun i => 2 ^ (attempt + 1 + i)) := by
  rw [List.range_succ_eq_map, List.map_cons, List.map_map]
  refine congrArg₂ List.cons ?_ (List.map_congr_left ?_)
  · show 2 ^ (attempt + 0) = 2 ^ attempt
    rw [Nat.add_zero]
  · intro i _
    show 2 ^ (attempt + (i + 1)) = 2 ^ (attempt + 1 + i)
    exact congrArg (2 ^ ·) (by omega)

theorem make_request_from_all_fail (net : Nat → Option String) :
    ∀ (rem attempt : Nat), (∀ i, i < rem → net (attempt + i) = none) →
      make_request_from net attempt rem =
        (none, (List.range rem).map (fun i => 2 ^ (attempt + i))) := by
  intro rem
  induction rem with
  | zero => intro attempt _; rfl
  | succ m ih =>
    intro attempt h
    have h0 : net attempt = none := by simpa using h 0 (Nat.succ_pos m)
    have hrest := ih (attempt + 1) (fun i hi => by
      have := h (i + 1) (Nat.succ_lt_succ hi)
      simpa [Nat.add_assoc, Nat.add_comm 1 i] using this)
    rw [range_pow_shift]
    simp only [make_request_from, h0, hrest]

theorem make_request_from_succeeds (net : Nat → Option String) (v : String) :
    ∀ (k attempt rem : Nat), k < rem → (∀ i, i < k → net (attempt + i) = none) →
      net (attempt + k) = some v →
      make_request_from net attempt rem =
        (some v, (List.range k).map (fun i => 2 ^ (attempt + i))) := by
  intro k
  induction k with
  | zero =>
    intro attempt rem hrem hfail hok
    match rem, hrem with
    | rem + 1, _ =>
      have h0 : net attempt = some v := by simpa using hok
      simp [make_request_from, h0]
  | succ m ih =>
    intro attempt rem hrem hfail hok
    match rem, hrem with
    | rem + 1, hrem =>
      have h0 : net attempt = none := by simpa using hfail 0 (Nat.succ_pos m)
      have hrest := ih (attempt + 1) rem (by omega)
        (fun i hi => by
          have := hfail (i + 1) (Nat.succ_lt_succ hi)
          simpa [Nat.add_assoc, Nat.add_comm 1 i] using this)
        (by
          have heq : attempt + 1 + m = attempt + (m + 1) := by omega
          rw [heq]
          exact hok)
      rw [range_pow_shift]
      simp only [make_request_from, h0, hrest]

theorem fsUpdate_same (fs : FS) (k : String) (v : Option Content) :
    fsUpdate fs k v k = v := by
  simp [fsUpdate]

theorem fsUpdate_ne (fs : FS) (k k' : String) (v : Option Content) (h : k' ≠ k) :
    fsUpdate fs k v k' = fs k' := by
  simp [fsUpdate, h]

theorem download_fs_local (o : FetchOutcome) (info : FileInfo) (dst : String) (fs : FS)
    (k : String) (hk : k ≠ dst) : (download o info dst fs).fs k = fs k := by
  unfold download
  split
  · rfl
  · cases o with
    | failEarly => rfl
    | failMid p => simp [fsUpdate, hk]
    | ok c =>
      simp only []
      split
      · simp [fsUpdate, hk]
      · simp [fsUpdate, hk]

theorem download_agree (o : FetchOutcome) (info : FileInfo) (dst : String) {fs fs' : FS}
    (h : fs dst = fs' dst) :
    (download o info dst fs).ok = (download o info dst fs').ok ∧
    (download o info dst fs).fs dst = (download o info dst fs').fs dst := by
  by_cases hskip : ((fs' dst).isSome && validate_existing_file (fs' dst) info) = true
  · have hskip2 : ((fs dst).isSome && validate_existing_file (fs dst) info) = true := by
      rw [h]; exact hskip
    simp [download, hskip, hskip2, h]
  · have hskip2 : ¬ ((fs dst).isSome && validate_existing_file (fs dst) info) = true := by
      rw [h]; exact hskip
    cases o with
    | failEarly => simp [download, hskip, hskip2, h]
    | failMid p => simp [download, hskip, hskip2, fsUpdate_same]
    | ok c =>
      by_cases hv : validate_download (some c) info = true <;>
        simp [download, hskip, hskip2, fsUpdate_same, hv]

theorem downloadAll_spec (net : String → FetchOutcome) (dir : String) :
    ∀ (ds : List FileInfo) (fs : FS),
      (ds.map (destPath dir)).Nodup →
      (downloadAll net dir ds fs).1 =
          (ds.filter (fun d => (download (net d.url) d (destPath dir d) fs).ok)).map
            (destPath dir) ∧
      (∀ d ∈ ds, (downloadAll net dir ds fs).2 (destPath dir d) =
          (download (net d.url) d (destPath dir d) fs).fs (destPath dir d)) ∧
      ∀ k, (∀ d ∈ ds, destPath dir d ≠ k) → (downloadAll net dir ds fs).2 k = fs k := by
  intro ds
  induction ds with
  | nil =>
    intro fs _
    exact ⟨rfl, by simp, fun k _ => rfl⟩
  | cons i is ih =>
    intro fs hnodup
    have hnd : destPath dir i ∉ is.map (destPath dir) ∧ (is.map (destPath dir)).Nodup := by
      simpa [List.nodup_cons] using hnodup
    have hne : ∀ d ∈ is, destPath dir d ≠ destPath dir i := by
      intro d hd heq
      exact hnd.1 (heq ▸ List.mem_map_of_mem (destPath dir) hd)
    obtain ⟨iha, ihb, ihc⟩ :=
      ih (download (net i.url) i (destPath dir i) fs).fs hnd.2
    have hagree : ∀ d ∈ is,
        (download (net i.url) i (destPath dir i) fs).fs (destPath dir d) =
          fs (destPath dir d) := by
      intro d hd
      exact download_fs_local _ _ _ _ _ (hne d hd)
    have hunfold : downloadAll net dir (i :: is) fs =
        (if (download (net i.url) i (destPath dir i) fs).ok then
          (destPath dir i ::
            (downloadAll net dir is (download (net i.url) i (destPath dir i) fs).fs).1,
           (downloadAll net dir is (download (net i.url) i (destPath dir i) fs).fs).2)
        else downloadAll net dir is (download (net i.url) i (destPath dir i) fs).fs) := by
      rfl
    have hsnd : (downloadAll net dir (i :: is) fs).2 =
        (downloadAll net dir is (download (net i.url) i (destPath dir i) fs).fs).2 := by
      rw [hunfold]
      by_cases hro : (download (net i.url) i (destPath dir i) fs).ok <;> simp [hro]
    refine ⟨?_, ?_, ?_⟩
    · rw [hunfold]
      have hfilter :
          is.filter (fun d =>
            (download (net d.url) d (destPath dir d)
              (download (net i.url) i (destPath dir i) fs).fs).ok) =
          is.filter (fun d => (download (net d.url) d (destPath dir d) fs).ok) :=
        List.filter_congr (fun d hd => (download_agree _ _ _ (hagree d hd)).1)
      by_cases hro : (download (net i.url) i (destPath dir i) fs).ok <;>
        simp [hro, iha, hfilter, List.filter_cons]
    · intro d hd
      rw [hsnd]
      rcases List.mem_cons.mp hd with hdi | hdi
      · subst hdi
        exact ihc (destPath dir d) hne
      · rw [ihb d hdi]
        exact (download_agree _ _ _ (hagree d hdi)).2
    · intro k hk
      rw [hsnd, ihc k (fun d hd => hk d (List.mem_cons_of_mem i hd))]
      exact download_fs_local _ _ _ _ _ (hk i (List.mem_cons_self i is)).symm

theorem lookup_dictInsert (l : List (String × Value)) (k : String) (v : Value)
    (key : String) :
    List.lookup key (dictInsert l k v) = if key = k then some v else List.lookup key l := by
  induction l with
  | nil =>
    by_cases h : key = k
    · subst h
      simp [dictInsert, List.lookup_cons]
    · have hb : (key == k) = false := beq_eq_false_iff_ne.mpr h
      simp [dictInsert, List.lookup_cons, hb, h]
  | cons kv rest ih =>
    obtain ⟨k', v'⟩ := kv
    by_cases h1 : k' = k
    · subst h1
      by_cases h2 : key = k'
      · subst h2
        simp [dictInsert, List.lookup_cons]
      · have hb : (key == k') = false := beq_eq_false_iff_ne.mpr h2
        simp [dictInsert, List.lookup_cons, hb, h2]
    · by_cases h2 : key = k'
      · subst h2
        simp [dictInsert, h1, List.lookup_cons, Ne.symm h1]
      · have hb2 : (key == k') = false := beq_eq_false_iff_ne.mpr h2
        simp [dictInsert, h1, List.lookup_cons, hb2, ih]

theorem clean_row_foldl (pairs : List (Option String × Option String)) :
    ∀ (acc : List (String × Value)) (key : String),
      List.lookup key
        (pairs.foldl (fun a q => dictInsert a (cleanKey q.1) (cleanCell q.2)) acc) =
      match pairs.reverse.find? (fun q => cleanKey q.1 == key) with
      | some q => some (cleanCell q.2)
      | none => List.lookup key acc := by
  induction pairs with
  | nil => intro acc key; rfl
  | cons q ps ih =>
    intro acc key
    have hrev : (q :: ps).reverse = ps.reverse ++ [q] := by simp
    rw [List.foldl_cons, ih, hrev, List.find?_append]
    cases hf : ps.reverse.find? (fun r => cleanKey r.1 == key) with
    | some r => simp
    | none =>
      simp only [Option.or, List.find?_singleton]
      by_cases hq : cleanKey q.1 = key
      · simp [hq, lookup_dictInsert]
      · have hq' : (cleanKey q.1 == key) = false := beq_eq_false_iff_ne.mpr hq
        have hq2 : ¬ key = cleanKey q.1 := fun e => hq e.symm
        simp [hq', lookup_dictInsert, hq2]

/-! ## Claim theorems -/

/-- Claim C1: on a successful fetch, `detect_changes` stores the page's hash,
answers `true` exactly when that hash differs from the stored one (in
particular when none is stored), and a second call on unchanged content
answers `false` and leaves the stored fingerprint unmodified. -/
theorem c1_detect_changes_contract (hashf : String → String) (content : String)
    (cache : Option String) :
    (detect_changes hashf (some content) cache).2 = some (hashf content) ∧
    (detect_changes hashf (some content) cache).1 = (cache != some (hashf content)) ∧
    detect_changes hashf (some content) ((detect_changes hashf (some content) cache).2)
      = (false, some (hashf content)) := by
  have hdet : ∀ cc : Option String, detect_changes hashf (some content) cc =
      if (some (hashf content) : Option String) ≠ cc then (true, some (hashf content))
      else (false, cc) := fun _ => rfl
  have hself : detect_changes hashf (some content) (some (hashf content))
      = (false, some (hashf content)) := by
    rw [hdet, if_neg (fun hne => hne rfl)]
  by_cases h : (some (hashf content) : Option String) = cache
  · have hr : detect_changes hashf (some content) cache = (false, cache) := by
      rw [hdet, if_neg (fun hne => hne h)]
    refine ⟨?_, ?_, ?_⟩
    · rw [hr]
      exact h.symm
    · rw [hr, ← h]
      exact (bne_self_eq_false _).symm
    · rw [hr]
      have hc : cache = some (hashf content) := h.symm
      rw [hc]
      exact hself
  · have hr : detect_changes hashf (some content) cache = (true, some (hashf content)) := by
      rw [hdet, if_pos h]
    refine ⟨by rw [hr], ?_, by rw [hr]; exact hself⟩
    rw [hr]
    cases hbe : cache == some (hashf content)
    · simp [bne, hbe]
    · exact absurd (eq_of_beq hbe) (fun e => h e.symm)

/-- Claim C2 counterexample: the metadata probe and the artifact fetch do not
behave as the retrying primitive. With an oracle whose first attempt fails
and whose second succeeds, `_make_request` recovers, but the single-attempt
`session.head` probe and `session.get` download fetch both fail. -/
theorem c2_counterexample :
    ¬ ∀ net : Nat → Option String,
        head_probe net = (make_request net retry_attempts).1 ∧
        download_get net = (make_request net retry_attempts).1 := by
  intro h
  have h2 := h (fun n => if n == 0 then none else some "r")
  revert h2
  decide

/-- Claim C2 (amended): only the page fetch goes through the retrying
primitive — `_make_request` retries up to `retry_attempts` times, sleeping
`2 ^ attempt` after each failed attempt, and exhausting retries yields a
non-fatal `none`; the metadata probe and the artifact download each issue a
single request. -/
theorem c2_amended_fetch_policy (net badnet : Nat → Option String) (v : String) (k : Nat)
    (hk : k < retry_attempts) (hfail : ∀ i, i < k → net i = none) (hok : net k = some v)
    (hall : ∀ i, i < retry_attempts → badnet i = none) :
    make_request net retry_attempts = (some v, (List.range k).map (fun i => 2 ^ i)) ∧
    make_request badnet retry_attempts =
      (none, (List.range retry_attempts).map (fun i => 2 ^ i)) ∧
    head_probe net = net 0 ∧ download_get net = net 0 := by
  refine ⟨?_, ?_, rfl, rfl⟩
  · have := make_request_from_succeeds net v k 0 retry_attempts hk
      (by simpa using hfail) (by simpa using hok)
    simpa using this
  · have := make_request_from_all_fail badnet retry_attempts 0 (by simpa using hall)
    simpa using this

/-- Claim C2 witness: a concrete oracle failing once then succeeding, and one
failing always, with the concrete retry results. -/
theorem c2_amended_fetch_policy_witness :
    ((fun n => if n == 1 then (some "ok" : Option String) else none) 0 = none) ∧
    make_request (fun n => if n == 1 then (some "ok" : Option String) else none)
      retry_attempts = (some "ok", [1]) ∧
    make_request (fun _ => (none : Option String)) retry_attempts = (none, [1, 2, 4]) := by
  have h := c2_amended_fetch_policy
    (fun n => if n == 1 then (some "ok" : Option String) else none)
    (fun _ => none) "ok" 1 (by decide) (by decide) rfl (fun i _ => rfl)
  exact ⟨rfl, h.1.trans (by decide), h.2.1.trans (by decide)⟩

/-- Claim C3 counterexample: the loop in `_process_single_file` does not stop
at the first matching processor. A registry holding two processors that both
claim `.zip` files has both of them invoked on one file in one pass. -/
theorem c3_counterexample :
    ¬ ∀ (procs : List Processor) (f : String),
        invokedOn procs f = firstMatchOnly procs f := by
  intro h
  have h2 := h [zipProcessor (fun _ => []), zipProcessor (fun _ => [])] "a.zip"
  have hlen : (invokedOn [zipProcessor (fun _ => []), zipProcessor (fun _ => [])]
        "a.zip").length =
      (firstMatchOnly [zipProcessor (fun _ => []), zipProcessor (fun _ => [])]
        "a.zip").length := by
    rw [h2]
  revert hlen
  decide

/-- Claim C3 (amended): the chain invokes `process` for every processor whose
`can_process` holds, in registry order; with the registry built by
`create_monitor` the two suffix predicates are disjoint, so at most one
processor processes any file per chain pass. -/
theorem c3_amended_dispatch :
    (∀ (ext conv : String → List String) (f : String),
      (invokedOn (defaultProcessors ext conv) f).length ≤ 1) ∧
    ∀ (procs : List Processor) (f : String),
      invokedOn procs f = procs.filter (fun p => p.canProcess f) := by
  constructor
  · intro ext conv f
    have hdisj : zip_can_process f = true → csv_can_process f = false := by
      intro hz
      have h1 : strLower (pathSuffix f) = ".zip" := by
        simpa [zip_can_process] using hz
      simp [csv_can_process, h1]
    by_cases hz : zip_can_process f
    · have hc := hdisj hz
      simp [defaultProcessors, invokedOn, zipProcessor, csvProcessor, hz, hc]
    · by_cases hc : csv_can_process f <;>
        simp [defaultProcessors, invokedOn, zipProcessor, csvProcessor, hz, hc]
  · intro procs f
    induction procs with
    | nil => rfl
    | cons p ps ih => by_cases hp : p.canProcess f <;> simp [invokedOn, hp, ih]

/-- Claim C4: with pairwise-distinct destination paths, when exactly one
descriptor's body fails validation, the download step returns exactly N−1
successful paths, the failing descriptor's partial file is deleted, and every
other descriptor is reported successfully with its own download's on-disk
result. -/
theorem c4_partial_failure_isolation (net : String → FetchOutcome) (dir : String)
    (pre post : List FileInfo) (bad : FileInfo) (cBad : Content) (fs : FS)
    (hnodup : ((pre ++ bad :: post).map (destPath dir)).Nodup)
    (hgood : ∀ d ∈ pre ++ post, (download (net d.url) d (destPath dir d) fs).ok = true)
    (hnet : net bad.url = .ok cBad)
    (hskip : ((fs (destPath dir bad)).isSome &&
        validate_existing_file (fs (destPath dir bad)) bad) = false)
    (hval : validate_download (some cBad) bad = false) :
    (downloadAll net dir (pre ++ bad :: post) fs).1.length = pre.length + post.length ∧
    (downloadAll net dir (pre ++ bad :: post) fs).2 (destPath dir bad) = none ∧
    (∀ d ∈ pre ++ post,
      destPath dir d ∈ (downloadAll net dir (pre ++ bad :: post) fs).1) ∧
    ∀ d ∈ pre ++ post,
      (downloadAll net dir (pre ++ bad :: post) fs).2 (destPath dir d) =
        (download (net d.url) d (destPath dir d) fs).fs (destPath dir d) := by
  have hbadDl : download (net bad.url) bad (destPath dir bad) fs =
      ⟨false, fsUpdate (fsUpdate fs (destPath dir bad) (some cBad)) (destPath dir bad) none,
        1⟩ := by
    rw [hnet]
    simp [download, hskip, hval, fsUpdate_same]
  obtain ⟨ha, hb, _⟩ := downloadAll_spec net dir (pre ++ bad :: post) fs hnodup
  have hmem : ∀ d ∈ pre ++ post, d ∈ pre ++ bad :: post := by
    intro d hd
    rcases List.mem_append.mp hd with hl | hr
    · exact List.mem_append_left _ hl
    · exact List.mem_append_right _ (List.mem_cons_of_mem bad hr)
  have hfil : (pre ++ bad :: post).filter
      (fun d => (download (net d.url) d (destPath dir d) fs).ok) = pre ++ post := by
    rw [List.filter_append, List.filter_cons]
    have hpre : pre.filter (fun d => (download (net d.url) d (destPath dir d) fs).ok)
        = pre := List.filter_eq_self.mpr
          (fun d hd => hgood d (List.mem_append_left post hd))
    have hpost : post.filter (fun d => (download (net d.url) d (destPath dir d) fs).ok)
        = post := List.filter_eq_self.mpr
          (fun d hd => hgood d (List.mem_append_right pre hd))
    have hbadOk : (download (net bad.url) bad (destPath dir bad) fs).ok = false := by
      rw [hbadDl]
    rw [hpre, hpost, hbadOk]
    simp
  refine ⟨?_, ?_, ?_, ?_⟩
  · rw [ha, hfil]
    simp
  · rw [hb bad (List.mem_append_right pre (List.mem_cons_self bad post)), hbadDl]
    exact fsUpdate_same _ _ _
  · intro d hd
    rw [ha, hfil]
    exact List.mem_map_of_mem (destPath dir) hd
  · intro d hd
    exact hb d (hmem d hd)

/-- Concrete descriptors, network and filesystem for the C4 witness. -/
def w4i1 : FileInfo := ⟨"u1", "a.zip", some 5, none⟩

/-- Failing descriptor for the C4 witness: its body is not a valid zip. -/
def w4bad : FileInfo := ⟨"u2", "b.zip", some 7, none⟩

/-- Third descriptor for the C4 witness, with unknown size. -/
def w4i2 : FileInfo := ⟨"u3", "c.zip", none, none⟩

/-- Network oracle for the C4 witness. -/
def w4net : String → FetchOutcome := fun u =>
  if u = "u1" then .ok ⟨5, true⟩ else if u = "u2" then .ok ⟨7, false⟩ else .ok ⟨9, true⟩

/-- Claim C4 witness: of three descriptors where exactly the middle one fails
zip validation, two paths are returned, the failing file is deleted, and a
sibling's path is still reported. -/
theorem c4_partial_failure_isolation_witness :
    ((([w4i1] ++ w4bad :: [w4i2]).map (destPath "dl")).Nodup) ∧
    (downloadAll w4net "dl" ([w4i1] ++ w4bad :: [w4i2]) (fun _ => none)).1.length = 2 ∧
    (downloadAll w4net "dl" ([w4i1] ++ w4bad :: [w4i2]) (fun _ => none)).2
      (destPath "dl" w4bad) = none ∧
    destPath "dl" w4i1 ∈ (downloadAll w4net "dl" ([w4i1] ++ w4bad :: [w4i2])
      (fun _ => none)).1 := by
  have h := c4_partial_failure_isolation w4net "dl" [w4i1] [w4i2] w4bad ⟨7, false⟩
    (fun _ => none) (by decide) (by decide) rfl (by decide) (by decide)
  exact ⟨by decide, h.1.trans (by decide), h.2.1, h.2.2.1 w4i1 (by decide)⟩

/-- Claim C5: when the destination already holds content whose size equals the
descriptor's known `expectedSize`, `download` issues no fetch, reports the
file as valid, and leaves the filesystem untouched. -/
theorem c5_download_skip (o : FetchOutcome) (info : FileInfo) (dst : String) (fs : FS)
    (c : Content) (n : Nat) (hex : fs dst = some c) (hsz : info.size = some n)
    (heq : c.size = n) :
    (download o info dst fs).fetches = 0 ∧ (download o info dst fs).ok = true ∧
    ∀ k, (download o info dst fs).fs k = fs k := by
  have hskip : ((fs dst).isSome && validate_existing_file (fs dst) info) = true := by
    rw [hex]
    simp [validate_existing_file, hsz, heq]
  refine ⟨?_, ?_, ?_⟩ <;> simp [download, hskip]

/-- Filesystem for the C5 witness: the destination already holds a 5-byte zip. -/
def w5fs : FS := fun k => if k = "dl/a.zip" then some ⟨5, true⟩ else none

/-- Descriptor for the C5 witness, with expected size 5. -/
def w5info : FileInfo := ⟨"u", "a.zip", some 5, none⟩

/-- Claim C5 witness: an existing matching file is skipped with zero fetches. -/
theorem c5_download_skip_witness :
    (w5fs "dl/a.zip" = some ⟨5, true⟩) ∧ (w5info.size = some 5) ∧
    (download .failEarly w5info "dl/a.zip" w5fs).fetches = 0 ∧
    (download .failEarly w5info "dl/a.zip" w5fs).ok = true := by
  have h := c5_download_skip .failEarly w5info "dl/a.zip" w5fs ⟨5, true⟩ 5 rfl rfl rfl
  exact ⟨rfl, rfl, h.1, h.2.1⟩

/-- Claim C6: value coercion tries empty-to-null, then integer, then float,
then the case-insensitive boolean token set, else keeps the text; in
particular cell 007 becomes integer 7, the empty cell becomes null, and Yes
becomes boolean true (1 parses as an integer before the boolean branch). -/
theorem c6_value_coercion :
    cleanCell (some "") = .vNull ∧
    cleanCell (some "   ") = .vNull ∧
    cleanCell none = .vNull ∧
    cleanCell (some "007") = .vInt 7 ∧
    cleanCell (some "Yes") = .vBool true ∧
    cleanCell (some "1") = .vInt 1 ∧
    cleanCell (some "-2.5") = .vFloat "-2.5" ∧
    cleanCell (some "TRUE") = .vBool true ∧
    cleanCell (some "No") = .vBool false ∧
    cleanCell (some "hello") = .vStr "hello" := by decide

/-- Claim C7 (code bug): `_read_csv` raises its could-not-read error for a
file whose very first candidate encoding decodes successfully but yields zero
rows, although the claim (and the error message itself) say the failure
occurs only when every candidate fails. Fallback to a later encoding does
work when it yields rows. -/
theorem c7_read_csv_empty_rows_bug :
    read_csv (fun _ => .ok []) = .error "Could not read CSV file with any encoding" ∧
    read_csv (fun e => if e = "utf-8" then .decodeErr
      else .ok [[(some "a", some "1")]]) = .ok [[("a", .vInt 1)]] := by
  exact ⟨rfl, rfl⟩

/-- Claim C8: a missing (`None`) or empty column name becomes the placeholder
`unnamed_column`, and looking a cleaned key up in a cleaned row yields the
value of the last pair whose cleaned key matches — duplicates are not
deduplicated, last write wins. -/
theorem c8_clean_row_columns :
    cleanKey none = "unnamed_column" ∧ cleanKey (some "") = "unnamed_column" ∧
    ∀ (pairs : List (Option String × Option String)) (key : String),
      List.lookup key (clean_row pairs) =
        (pairs.reverse.find? (fun q => cleanKey q.1 == key)).map
          (fun q => cleanCell q.2) := by
  refine ⟨rfl, rfl, ?_⟩
  intro pairs key
  rw [clean_row, clean_row_foldl pairs [] key]
  cases pairs.reverse.find? (fun q => cleanKey q.1 == key) <;> rfl

/-- Claim C9: a probe response without a content-length header makes
`_enrich_file_info` store size 0 (not leave it unset), and a stored size of 0
is falsy in every downstream size check: any existing destination file is
skipped as valid with zero fetches, and `_validate_download` degenerates to
the zip check alone, accepting any byte count. -/
theorem c9_size_zero_disables_validation (lm : Option String) (info : FileInfo)
    (c : Content) (o : FetchOutcome) (fs : FS) (dst : String)
    (h0 : info.size = some 0) (hex : fs dst = some c) :
    (enrich_file_info none lm info).size = some 0 ∧
    validate_existing_file (fs dst) info = true ∧
    (download o info dst fs).fetches = 0 ∧ (download o info dst fs).ok = true ∧
    ∀ c', validate_download (some c') info = c'.isZip := by
  have hval : validate_existing_file (fs dst) info = true := by
    rw [hex]
    simp [validate_existing_file, h0]
  have hskip : ((fs dst).isSome && validate_existing_file (fs dst) info) = true := by
    rw [hval, hex]
    rfl
  refine ⟨rfl, hval, ?_, ?_, ?_⟩
  · simp [download, hskip]
  · simp [download, hskip]
  · intro c'
    simp [validate_download, h0]

/-- Filesystem for the C9 witness: the destination holds 123 bytes that are
not a valid zip. -/
def w9fs : FS := fun k => if k = "dl/b.zip" then some ⟨123, false⟩ else none

/-- Descriptor for the C9 witness, enriched with a missing content-length. -/
def w9info : FileInfo := ⟨"u", "b.zip", some 0, none⟩

/-- Claim C9 witness: with size 0, a 123-byte non-zip existing file is
accepted and skipped, and a 999-byte valid zip passes the size check. -/
theorem c9_size_zero_disables_validation_witness :
    (w9info.size = some 0) ∧ (w9fs "dl/b.zip" = some ⟨123, false⟩) ∧
    validate_existing_file (w9fs "dl/b.zip") w9info = true ∧
    (download .failEarly w9info "dl/b.zip" w9fs).fetches = 0 ∧
    validate_download (some ⟨999, true⟩) w9info = true := by
  have h := c9_size_zero_disables_validation none w9info ⟨123, false⟩ .failEarly w9fs
    "dl/b.zip" rfl rfl
  exact ⟨rfl, rfl, h.2.1, h.2.2.1, h.2.2.2.2 ⟨999, true⟩⟩

/-- Claim C10: a mid-stream fetch exception makes `download` return false but
leave the partially written file on disk; the destination ends up deleted
only through the explicit validation-failure branch (or if it never existed). -/
theorem c10_partial_file_left_on_fetch_error (info : FileInfo) (dst : String) (fs : FS)
    (p : Content)
    (hskip : ((fs dst).isSome && validate_existing_file (fs dst) info) = false) :
    (download (.failMid p) info dst fs).ok = false ∧
    (download (.failMid p) info dst fs).fs dst = some p ∧
    ∀ o, (download o info dst fs).fs dst = none →
      fs dst = none ∨ ∃ c, o = .ok c ∧ validate_download (some c) info = false := by
  refine ⟨by simp [download, hskip], by simp [download, hskip, fsUpdate_same], ?_⟩
  intro o hnone
  cases o with
  | failEarly =>
    left
    simpa [download, hskip] using hnone
  | failMid q =>
    exfalso
    simp [download, hskip, fsUpdate_same] at hnone
  | ok c =>
    cases hv : validate_download (some c) info with
    | true =>
      exfalso
      simp [download, hskip, fsUpdate_same, hv] at hnone
    | false =>
      right
      exact ⟨c, rfl, hv⟩

/-- Descriptor for the C10 witness. -/
def w10info : FileInfo := ⟨"u", "c.zip", some 9, none⟩

/-- Claim C10 witness: a mid-stream failure after 4 bytes on an empty
filesystem returns false and leaves the 4-byte partial file in place. -/
theorem c10_partial_file_left_on_fetch_error_witness :
    ((((fun _ => none : FS) "dl/c.zip").isSome &&
        validate_existing_file ((fun _ => none : FS) "dl/c.zip") w10info) = false) ∧
    (download (.failMid ⟨4, false⟩) w10info "dl/c.zip" (fun _ => none)).ok = false ∧
    (download (.failMid ⟨4, false⟩) w10info "dl/c.zip" (fun _ => none)).fs "dl/c.zip"
      = some ⟨4, false⟩ := by
  have h := c10_partial_file_left_on_fetch_error w10info "dl/c.zip" (fun _ => none)
    ⟨4, false⟩ (by decide)
  exact ⟨by decide, h.1, h.2.1⟩

end IATTC
